import Mathlib

/-!
Verification of the task-agent core (`taskAgent.py` and `taskAgentClaude.py`):
a shallow embedding of the task data model, the store, and the
add/complete/recommend/report operations, followed by theorems settling the
specification's testable properties.

Modelling conventions:
- Python dicts parsed from JSON are modelled by the inductive `JVal`.
- The task record built by `add_task` has a fixed key set, so it is modelled
  by the structure `Task`; the boundary between `Task` and the JSON document
  on disk is the pair `encodeTask`/`decodeTask`, whose field names are exactly
  the keys the Python code writes.
- The AI provider and the `json.loads` call on its reply are external to the
  repository; their combined outcome is passed in as a value of type
  `Except AnalyzeError JVal` (network failure, unparseable reply, or a parsed
  JSON value), mirroring the spec's `AnalysisUnavailable`/`AnalysisMalformed`
  taxonomy. Free-text calls are passed as an oracle `ai : String → String`.
- The backing document `tasks.json` is modelled by `DocState`; `datetime.now()`
  results are passed in as ISO-8601 strings.
-/

namespace TaskAgent

/-- JSON values, as produced by Python's `json.loads` and consumed by
`json.dump`. Objects keep their (insertion-ordered) field list. -/
inductive JVal where
  | null
  | bool (b : Bool)
  | num (n : Int)
  | str (s : String)
  | arr (elems : List JVal)
  | obj (fields : List (String × JVal))
deriving Repr

/-- Python dict subscription `d[k]` on a parsed JSON value: `some v` when `d`
is an object with field `k` (first occurrence; `json.loads` never produces
duplicate keys), `none` when the key is missing (Python `KeyError`) or the
value is not a dict at all (Python `TypeError`). -/
def JVal.getKey : JVal → String → Option JVal
  | .obj fields, k => fields.lookup k
  | _, _ => none

mutual
/-- Rendering of a JSON value to text, abstracting Python's string conversion
of parsed JSON data when it is interpolated into prompts and messages. No
claim inspects these rendered fragments. -/
def JVal.render : JVal → String
  | .null => "null"
  | .bool b => if b then "true" else "false"
  | .num n => toString n
  | .str s => "\"" ++ s ++ "\""
  | .arr elems => "[" ++ JVal.renderList elems ++ "]"
  | .obj fields => "\x7b" ++ JVal.renderFields fields ++ "\x7d"

/-- Comma-separated rendering of a list of JSON values. -/
def JVal.renderList : List JVal → String
  | [] => ""
  | [v] => JVal.render v
  | v :: vs => JVal.render v ++ ", " ++ JVal.renderList vs

/-- Comma-separated rendering of an object's fields. -/
def JVal.renderFields : List (String × JVal) → String
  | [] => ""
  | [(k, v)] => "\"" ++ k ++ "\": " ++ JVal.render v
  | (k, v) :: fs => "\"" ++ k ++ "\": " ++ JVal.render v ++ ", " ++ JVal.renderFields fs
end

/-- Python `str()` of a parsed JSON value inside an f-string: a string value
prints bare, anything else as its structural rendering. -/
def JVal.pystr : JVal → String
  | .str s => s
  | v => v.render

/-- A task record, exactly the dict literal built in `add_task`
(`taskAgent.py` lines 46-55, `taskAgentClaude.py` lines 50-59).
`completed_at := none` models the key being absent until `complete_task`
first sets it. The analysis-supplied fields keep whatever JSON value the
provider returned — the source does not validate them. -/
structure Task where
  id : Int
  description : String
  created_at : String
  priority : JVal
  estimated_hours : JVal
  category : JVal
  subtasks : JVal
  status : String
  completed_at : Option String := none
deriving Repr

/-- A transient history entry appended by `complete_task`
(`taskAgent.py` lines 131-135). -/
structure HistoryEntry where
  action : String
  task_id : Int
  timestamp : String
deriving Repr, DecidableEq

/-- State of the backing document `tasks.json` as seen by `open`/`json.load`:
absent (first run), unreadable (I/O error other than absence), readable but
not valid JSON, or readable with parsed content `j`. -/
inductive DocState where
  | absent
  | unreadable
  | invalid
  | content (j : JVal)
deriving Repr

/-- Failures of `load_tasks` other than the tolerated file-not-found case:
the spec's `StoreUnavailable` conditions. -/
inductive LoadError where
  | unreadable
  | notJson
deriving Repr, DecidableEq

/-- Failures of the analysis pipeline: `AnalysisUnavailable` (network, auth,
rate-limit, or any provider failure raised by the client call) and
`AnalysisMalformed` (reply not parseable as JSON, or missing a required key —
in the source a `json.JSONDecodeError` or `KeyError` escaping `add_task`). -/
inductive AnalyzeError where
  | unavailable
  | malformed
deriving Repr, DecidableEq

/-- The in-memory agent state: `self.tasks`, `self.task_history`, and the
backing document content. -/
structure AgentState where
  tasks : List Task
  task_history : List HistoryEntry
  doc : DocState

/-- The `load_tasks` method (`taskAgent.py` lines 13-18): reads and parses
`tasks.json`; a `FileNotFoundError` yields `[]`; any other failure
propagates. -/
def load_tasks : DocState → Except LoadError JVal
  | .absent => .ok (.arr [])
  | .unreadable => .error .unreadable
  | .invalid => .error .notJson
  | .content j => .ok j

/-- Serialization of one task record to the JSON object `json.dump` writes:
the eight keys of the dict literal in creation order, plus `completed_at`
when `complete_task` has set it. -/
def encodeTask (t : Task) : JVal :=
  .obj ([("id", .num t.id), ("description", .str t.description),
    ("created_at", .str t.created_at), ("priority", t.priority),
    ("estimated_hours", t.estimated_hours), ("category", t.category),
    ("subtasks", t.subtasks), ("status", .str t.status)] ++
    (match t.completed_at with
     | none => []
     | some c => [("completed_at", .str c)]))

/-- Serialization of the whole collection: the JSON array `save_tasks`
writes (`taskAgent.py` lines 20-22). -/
def encodeTasks (tasks : List Task) : JVal :=
  .arr (tasks.map encodeTask)

/-- Interpretation of a stored JSON object as a task record: the inverse
boundary of the embedding, accepting exactly the shapes `encodeTask`
produces (field names and order as written by `json.dump`). -/
def decodeTask : JVal → Option Task
  | .obj [("id", .num i), ("description", .str d), ("created_at", .str c),
      ("priority", p), ("estimated_hours", e), ("category", cat),
      ("subtasks", sub), ("status", .str st)] =>
    some { id := i, description := d, created_at := c, priority := p,
           estimated_hours := e, category := cat, subtasks := sub, status := st,
           completed_at := none }
  | .obj [("id", .num i), ("description", .str d), ("created_at", .str c),
      ("priority", p), ("estimated_hours", e), ("category", cat),
      ("subtasks", sub), ("status", .str st), ("completed_at", .str ca)] =>
    some { id := i, description := d, created_at := c, priority := p,
           estimated_hours := e, category := cat, subtasks := sub, status := st,
           completed_at := some ca }
  | _ => none

/-- Interpretation of a list of stored JSON objects as task records;
fails as soon as one element does not decode. -/
def decodeTaskList : List JVal → Option (List Task)
  | [] => some []
  | e :: es =>
    match decodeTask e, decodeTaskList es with
    | some t, some ts => some (t :: ts)
    | _, _ => none

/-- Interpretation of a stored JSON document as a task collection. -/
def decodeTasks : JVal → Option (List Task)
  | .arr elems => decodeTaskList elems
  | _ => none

/-- The id assignment of `add_task`, named `next_id` by the spec:
`len(self.tasks) + 1`. -/
def next_id (tasks : List Task) : Nat :=
  tasks.length + 1

/-- The `add_task` method of `taskAgent.py` (lines 41-58). `analysis` is the
outcome of `analyze_task_description`: a provider failure, a JSON parse
failure, or the parsed JSON value. A missing required key (`KeyError`)
aborts before the append, so it is the `malformed` failure. On success the
task is appended and `save_tasks` rewrites the document. -/
def add_task (s : AgentState) (description now : String)
    (analysis : Except AnalyzeError JVal) : Except AnalyzeError (AgentState × String) :=
  match analysis with
  | .error e => .error e
  | .ok a =>
    match a.getKey "priority", a.getKey "estimated_time",
        a.getKey "category", a.getKey "potential_subtasks" with
    | some p, some est, some cat, some sub =>
      let task : Task := { id := Int.ofNat s.tasks.length + 1,
                           description := description, created_at := now,
                           priority := p, estimated_hours := est, category := cat,
                           subtasks := sub, status := "pending", completed_at := none }
      let tasks' := s.tasks ++ [task]
      .ok ({ s with tasks := tasks', doc := .content (encodeTasks tasks') },
        "Added task with AI analysis: " ++ (encodeTask task).render)
    | _, _, _, _ => .error .malformed

/-- The `add_task` method of `taskAgentClaude.py` (lines 46-62): identical
except the provider's estimate key is `estimated_time_to_complete`. -/
def add_task_claude (s : AgentState) (description now : String)
    (analysis : Except AnalyzeError JVal) : Except AnalyzeError (AgentState × String) :=
  match analysis with
  | .error e => .error e
  | .ok a =>
    match a.getKey "priority", a.getKey "estimated_time_to_complete",
        a.getKey "category", a.getKey "potential_subtasks" with
    | some p, some est, some cat, some sub =>
      let task : Task := { id := Int.ofNat s.tasks.length + 1,
                           description := description, created_at := now,
                           priority := p, estimated_hours := est, category := cat,
                           subtasks := sub, status := "pending", completed_at := none }
      let tasks' := s.tasks ++ [task]
      .ok ({ s with tasks := tasks', doc := .content (encodeTasks tasks') },
        "Added task with AI analysis: " ++ (encodeTask task).render)
    | _, _, _, _ => .error .malformed

/-- One line of the recommendations context
(`taskAgent.py` lines 66-69). -/
def taskContextLine (t : Task) : String :=
  "Task " ++ toString t.id ++ ": " ++ t.description ++ " (Priority: " ++
    t.priority.pystr ++ ", Status: " ++ t.status ++ ")"

/-- The prompt built by `get_smart_recommendations`
(`taskAgent.py` lines 66-78). -/
def recommendationsPrompt (tasks : List Task) : String :=
  "Given these tasks:\n        " ++
    String.intercalate "\n" (tasks.map taskContextLine) ++
    "\n        \n        Provide recommendations for:\n" ++
    "        1. Which task should be done next and why\n" ++
    "        2. Any tasks that might be related or could be combined\n" ++
    "        3. Suggestions for optimal task scheduling\n" ++
    "        Consider priorities, deadlines, and task relationships in your analysis."

/-- The `get_smart_recommendations` method (`taskAgent.py` lines 60-85):
on an empty collection it returns the fixed message without touching the
provider; otherwise it sends one prompt and returns the reply verbatim.
The `Nat` component counts calls to the AI client oracle `ai`. -/
def get_smart_recommendations (s : AgentState) (ai : String → String) :
    AgentState × String × Nat :=
  if s.tasks.isEmpty then
    (s, "No tasks available for analysis", 0)
  else
    (s, ai (recommendationsPrompt s.tasks), 1)

/-- The prompt context built by `generate_progress_report`
(`taskAgent.py` lines 89-96). -/
def progressContext (tasks : List Task) : String :=
  "\n        Completed Tasks: " ++
    toString (tasks.filter (fun t => t.status == "completed")).length ++
    "\n        Pending Tasks: " ++
    toString (tasks.filter (fun t => t.status == "pending")).length ++
    "\n        Task Details: " ++ (encodeTasks tasks).render ++ "\n        "

/-- The prompt built by `generate_progress_report`
(`taskAgent.py` lines 98-106). -/
def progressPrompt (tasks : List Task) : String :=
  "Based on this task data:\n        " ++ progressContext tasks ++
    "\n        \n        Generate a concise progress report that includes:\n" ++
    "        1. Overall progress summary\n" ++
    "        2. Key achievements\n" ++
    "        3. Areas needing attention\n" ++
    "        4. Suggestions for improving productivity\n" ++
    "        Use a professional but engaging tone."

/-- The `generate_progress_report` method (`taskAgent.py` lines 87-113):
partitions the tasks, sends one prompt, returns the reply verbatim. -/
def generate_progress_report (s : AgentState) (ai : String → String) :
    AgentState × String × Nat :=
  (s, ai (progressPrompt s.tasks), 1)

/-- The loop body of `complete_task` (`taskAgent.py` lines 127-130): finds
the first task whose `id` matches, marks it completed with the given
timestamp, and returns the updated list together with the updated task;
`none` when no task matches. -/
def completeFirst (tasks : List Task) (task_id : Int) (now : String) :
    Option (List Task × Task) :=
  match tasks with
  | [] => none
  | t :: ts =>
    if t.id = task_id then
      let t' : Task := { t with status := "completed", completed_at := some now }
      some (t' :: ts, t')
    else
      match completeFirst ts task_id now with
      | some (ts', u) => some (t :: ts', u)
      | none => none

/-- The `complete_task` method (`taskAgent.py` lines 126-138): on a match it
mutates the task in place, appends a history entry, saves, and returns the
success message; with no match it returns the sentinel `"Task not found"`
(the source-level signal for the spec's `TaskNotFound`) and changes
nothing. -/
def complete_task (s : AgentState) (task_id : Int) (now : String) :
    AgentState × String :=
  match completeFirst s.tasks task_id now with
  | some (tasks', t') =>
    ({ tasks := tasks',
       task_history := s.task_history ++
                       [{ action := "complete", task_id := task_id, timestamp := now }],
       doc := .content (encodeTasks tasks') },
     "Completed task: " ++ t'.description)
  | none => (s, "Task not found")

/-- One core operation together with the external inputs it consumes
(timestamps, provider outcome). `list`, `recommend` and `report` never write
state, so the mutating fragment is `add` and `complete`. -/
inductive Op where
  | add (description now : String) (analysis : Except AnalyzeError JVal)
  | complete (task_id : Int) (now : String)

/-- State transition of one operation: a failed `add` raises before the
append, leaving the state exactly as it was. -/
def applyOp (s : AgentState) : Op → AgentState
  | .add d now a =>
    match add_task s d now a with
    | .ok (s', _) => s'
    | .error _ => s
  | .complete id now => (complete_task s id now).1

/-- The agent's starting state on a first run: empty collection, empty
history, no backing document yet. -/
def initState : AgentState :=
  { tasks := [], task_history := [], doc := .absent }

/-- States reachable by the core's own operations from a first run; the
Task Store is the only writer of the backing document. -/
inductive Reachable : AgentState → Prop where
  | init : Reachable initState
  | step {s : AgentState} (op : Op) : Reachable s → Reachable (applyOp s op)

/-- Collections built solely through `add` (no completions, no external
edits), as quantified by the id-freshness property. -/
inductive AddBuilt : List Task → Prop where
  | nil : AddBuilt []
  | step {ts : List Task} (hist : List HistoryEntry) (doc : DocState)
      (d now : String) (a : Except AnalyzeError JVal) (s' : AgentState) (msg : String) :
      AddBuilt ts → add_task ⟨ts, hist, doc⟩ d now a = .ok (s', msg) → AddBuilt s'.tasks

/-- The id layout every collection the core itself builds satisfies: the
ids read off the collection are exactly `1, 2, ..., length`. -/
def IdsCanonical (tasks : List Task) : Prop :=
  tasks.map Task.id = (List.range tasks.length).map (fun i => Int.ofNat i + 1)

/-- A concrete task record used by witnesses, matching the spec's scenario
store `[id 1, description "Write spec", priority high, status pending]`. -/
def sampleTask : Task :=
  { id := 1, description := "Write spec", created_at := "2024-01-01T09:00:00",
    priority := .str "high", estimated_hours := .num 2, category := .str "writing",
    subtasks := .arr [], status := "pending", completed_at := none }

/-- A concrete agent state holding `sampleTask`. -/
def sampleState : AgentState :=
  { tasks := [sampleTask], task_history := [], doc := .content (encodeTasks [sampleTask]) }

/-- A concrete well-formed analysis reply in the OpenAI binding's shape. -/
def sampleAnalysis : JVal :=
  .obj [("priority", .str "high"), ("estimated_time", .num 2),
        ("category", .str "development"), ("potential_subtasks", .arr [])]

/-- The same analysis reply in the Anthropic binding's shape (the estimate
key is `estimated_time_to_complete`). -/
def sampleAnalysisClaude : JVal :=
  .obj [("priority", .str "high"), ("estimated_time_to_complete", .num 2),
        ("category", .str "development"), ("potential_subtasks", .arr [])]

/- ### Helper lemmas -/

/-- Decoding inverts encoding on a single task record. -/
lemma decodeTask_encodeTask (t : Task) : decodeTask (encodeTask t) = some t := by
  rcases t with ⟨i, d, c, p, e, cat, sub, st, ca⟩
  cases ca <;> rfl

/-- Decoding inverts encoding on a whole collection. -/
lemma decodeTasks_encodeTasks (tasks : List Task) :
    decodeTasks (encodeTasks tasks) = some tasks := by
  have h : ∀ ts : List Task, decodeTaskList (ts.map encodeTask) = some ts := by
    intro ts
    induction ts with
    | nil => rfl
    | cons t ts ih =>
      simp [decodeTaskList, decodeTask_encodeTask, ih]
  simpa [decodeTasks, encodeTasks] using h tasks

/-- A JSON object that decodes to a task record is exactly its encoding. -/
lemma encodeTask_of_decodeTask {j : JVal} {t : Task} (h : decodeTask j = some t) :
    encodeTask t = j := by
  unfold decodeTask at h
  split at h
  · injection h with h2
    subst h2
    rfl
  · injection h with h2
    subst h2
    rfl
  · exact Option.noConfusion h

/-- A JSON document that decodes to a collection is exactly its encoding. -/
lemma encodeTasks_of_decodeTasks {j : JVal} {tasks : List Task}
    (h : decodeTasks j = some tasks) : encodeTasks tasks = j := by
  unfold decodeTasks at h
  split at h
  case h_2 => exact Option.noConfusion h
  case h_1 elems =>
    have hmap : ∀ (es : List JVal) (ts : List Task),
        decodeTaskList es = some ts → ts.map encodeTask = es := by
      intro es
      induction es with
      | nil =>
        intro ts hts
        injection hts with hts
        simp [← hts]
      | cons e es ih =>
        intro ts hts
        unfold decodeTaskList at hts
        split at hts
        case h_1 t ts2 ht hts2 =>
          injection hts with hts
          subst hts
          simp [encodeTask_of_decodeTask ht, ih ts2 hts2]
        case h_2 => exact Option.noConfusion hts
    simp [encodeTasks, hmap elems tasks h]

/-- When no task carries the requested id, the completion loop falls
through without producing an update. -/
lemma completeFirst_eq_none {tasks : List Task} {task_id : Int} (now : String)
    (h : ∀ u ∈ tasks, u.id ≠ task_id) : completeFirst tasks task_id now = none := by
  induction tasks with
  | nil => rfl
  | cons t ts ih =>
    have ht : t.id ≠ task_id := h t (by simp)
    simp only [completeFirst, if_neg ht]
    rw [ih (fun u hu => h u (by simp [hu]))]

/-- A successful completion decomposes the collection around the first task
whose id matches: everything before it does not match, it is replaced by its
completed copy, and everything after it is untouched. -/
lemma completeFirst_eq_some {tasks ts' : List Task} {task_id : Int} {now : String}
    {u : Task} (h : completeFirst tasks task_id now = some (ts', u)) :
    ∃ pre t post, tasks = pre ++ t :: post ∧ (∀ x ∈ pre, x.id ≠ task_id) ∧
      t.id = task_id ∧
      u = { t with status := "completed", completed_at := some now } ∧
      ts' = pre ++ u :: post := by
  induction tasks generalizing ts' u with
  | nil => exact Option.noConfusion h
  | cons t ts ih =>
    by_cases ht : t.id = task_id
    · simp only [completeFirst, if_pos ht, Option.some.injEq, Prod.mk.injEq] at h
      exact ⟨[], t, ts, by simp, by simp, ht, h.2.symm, by simp [← h.1, h.2]⟩
    · simp only [completeFirst, if_neg ht] at h
      split at h
      next ts2 u2 hm =>
        injection h with h2
        injection h2 with h3 h4
        obtain ⟨pre, tm, post, hts, hpre, htm, hu, hts2⟩ := ih hm
        refine ⟨t :: pre, tm, post, by simp [hts], ?_, htm, by simp [hu, ← h4], ?_⟩
        · intro x hx
          rcases List.mem_cons.mp hx with hx | hx
          · exact hx ▸ ht
          · exact hpre x hx
        · simp [← h3, hts2, h4]
      next => exact Option.noConfusion h

/-- Given the decomposition around the first matching task, the completion
loop produces exactly the completed copy in place. -/
lemma completeFirst_decomp (pre : List Task) (t : Task) (post : List Task)
    (task_id : Int) (now : String)
    (hpre : ∀ u ∈ pre, u.id ≠ task_id) (ht : t.id = task_id) :
    completeFirst (pre ++ t :: post) task_id now =
      some (pre ++ { t with status := "completed", completed_at := some now } :: post,
            { t with status := "completed", completed_at := some now }) := by
  induction pre with
  | nil => simp [completeFirst, ht]
  | cons u pre ih =>
    have hu : u.id ≠ task_id := hpre u (by simp)
    have ih2 := ih (fun x hx => hpre x (by simp [hx]))
    simp only [List.cons_append, completeFirst, if_neg hu, List.append_eq]
    rw [ih2]

/-- Shape of a successful `add_task`: exactly one new task appended at the
end, carrying the analysis fields and the id `length + 1`. -/
lemma add_task_ok {s : AgentState} {d now : String} {a : Except AnalyzeError JVal}
    {s' : AgentState} {msg : String} (h : add_task s d now a = .ok (s', msg)) :
    ∃ t : Task, s'.tasks = s.tasks ++ [t] ∧ t.id = Int.ofNat s.tasks.length + 1 ∧
      t.status = "pending" ∧ t.completed_at = none ∧ t.description = d ∧
      t.created_at = now ∧
      (∃ j, a = .ok j ∧ j.getKey "priority" = some t.priority ∧
        j.getKey "estimated_time" = some t.estimated_hours ∧
        j.getKey "category" = some t.category ∧
        j.getKey "potential_subtasks" = some t.subtasks) ∧
      s'.task_history = s.task_history ∧
      s'.doc = .content (encodeTasks s'.tasks) := by
  unfold add_task at h
  split at h
  case h_1 => exact Except.noConfusion h
  case h_2 j =>
    split at h
    case h_1 p est cat sub hp hest hcat hsub =>
      injection h with h2
      injection h2 with h3 h4
      subst h3
      refine ⟨_, rfl, rfl, rfl, rfl, rfl, rfl, ⟨j, rfl, hp, hest, hcat, hsub⟩, rfl, rfl⟩
    case h_2 => exact Except.noConfusion h

/-- The empty collection trivially has the canonical id layout. -/
lemma idsCanonical_nil : IdsCanonical [] := rfl

/-- Appending a task with id `length + 1` preserves the canonical layout. -/
lemma idsCanonical_append (tasks : List Task) (t : Task)
    (h : IdsCanonical tasks) (ht : t.id = Int.ofNat tasks.length + 1) :
    IdsCanonical (tasks ++ [t]) := by
  unfold IdsCanonical at *
  simp only [List.map_append, List.length_append, List.map_cons, List.map_nil,
    List.length_cons, List.length_nil, Nat.zero_add, List.range_succ, h, ht]

/-- Completion rewrites one task in place without touching any id, so the
projected id list — and in particular its length — is unchanged. -/
lemma completeFirst_map_id {tasks ts' : List Task} {task_id : Int} {now : String}
    {u : Task} (h : completeFirst tasks task_id now = some (ts', u)) :
    ts'.map Task.id = tasks.map Task.id := by
  obtain ⟨pre, t, post, hts, _, _, hu, hts2⟩ := completeFirst_eq_some h
  subst hts hts2 hu
  simp

/-- Every state the core itself reaches carries the canonical id layout. -/
lemma reachable_idsCanonical {s : AgentState} (h : Reachable s) :
    IdsCanonical s.tasks := by
  induction h with
  | init => exact idsCanonical_nil
  | step op _ ih =>
    rename_i s _
    cases op with
    | add d now a =>
      cases ha : add_task s d now a with
      | ok r =>
        obtain ⟨s', msg⟩ := r
        obtain ⟨t, hts, hid, _⟩ := add_task_ok ha
        simp only [applyOp, ha, hts]
        exact idsCanonical_append _ _ ih hid
      | error e => simpa [applyOp, ha] using ih
    | complete task_id now =>
      cases hm : completeFirst s.tasks task_id now with
      | some r =>
        obtain ⟨ts', u⟩ := r
        unfold IdsCanonical at *
        have hmap := completeFirst_map_id hm
        have hlen : ts'.length = s.tasks.length := by
          have := congrArg List.length hmap
          simpa using this
        simp only [applyOp, complete_task, hm, hmap, hlen]
        exact ih
      | none => simpa [applyOp, complete_task, hm] using ih

/-- Collections built solely through `add` carry the canonical id layout. -/
lemma addBuilt_idsCanonical {tasks : List Task} (h : AddBuilt tasks) :
    IdsCanonical tasks := by
  induction h with
  | nil => exact idsCanonical_nil
  | step hist doc d now a s' msg _ hadd ih =>
    obtain ⟨t, hts, hid, _⟩ := add_task_ok hadd
    rw [hts]
    exact idsCanonical_append _ _ ih hid

/-- Under the canonical layout, the id `length + 1` is not yet in use. -/
lemma idsCanonical_fresh {tasks : List Task} (h : IdsCanonical tasks) :
    Int.ofNat tasks.length + 1 ∉ tasks.map Task.id := by
  unfold IdsCanonical at h
  rw [h]
  intro hmem
  simp only [List.mem_map, List.mem_range, Int.ofNat_eq_coe] at hmem
  obtain ⟨i, hi, he⟩ := hmem
  omega

/-- Under the canonical layout, all ids are pairwise distinct. -/
lemma idsCanonical_nodup {tasks : List Task} (h : IdsCanonical tasks) :
    (tasks.map Task.id).Nodup := by
  unfold IdsCanonical at h
  rw [h]
  refine List.Nodup.map (fun a b hab => ?_) (List.nodup_range _)
  simp only [Int.ofNat_eq_coe] at hab
  omega

/-- One-step frame of the mutating operations over an existing position:
the task at position `i` either survives unchanged, or is rewritten to its
completed copy by a `complete` call naming its id. -/
lemma applyOp_evolution (s : AgentState) (op : Op) (i : Nat) (t : Task)
    (h : s.tasks[i]? = some t) :
    (applyOp s op).tasks[i]? = some t ∨
      ∃ now, op = .complete t.id now ∧
        (applyOp s op).tasks[i]? =
          some { t with status := "completed", completed_at := some now } := by
  cases op with
  | add d now a =>
    cases ha : add_task s d now a with
    | ok r =>
      obtain ⟨s', msg⟩ := r
      obtain ⟨t0, hts, -⟩ := add_task_ok ha
      left
      have hlt : i < s.tasks.length := by
        by_contra hge
        rw [List.getElem?_eq_none (by omega)] at h
        exact Option.noConfusion h
      simp only [applyOp, ha, hts, List.getElem?_append, if_pos hlt]
      exact h
    | error e =>
      left
      simpa [applyOp, ha] using h
  | complete task_id now =>
    cases hm : completeFirst s.tasks task_id now with
    | none =>
      left
      simpa [applyOp, complete_task, hm] using h
    | some r =>
      obtain ⟨ts', u⟩ := r
      obtain ⟨pre, tm, post, hts, hpre, htm, hu, hts2⟩ := completeFirst_eq_some hm
      have happ : (applyOp s (.complete task_id now)).tasks = pre ++ u :: post := by
        simp [applyOp, complete_task, hm, hts2]
      rcases Nat.lt_trichotomy i pre.length with hi | hi | hi
      · left
        rw [happ, List.getElem?_append, if_pos hi]
        rw [hts, List.getElem?_append, if_pos hi] at h
        exact h
      · right
        subst hi
        rw [hts, List.getElem?_append_right (le_refl _), Nat.sub_self,
          List.getElem?_cons_zero] at h
        injection h with h
        subst h
        refine ⟨now, by rw [htm], ?_⟩
        rw [happ, List.getElem?_append_right (le_refl _), Nat.sub_self,
          List.getElem?_cons_zero, hu]
      · left
        obtain ⟨k, hk⟩ : ∃ k, i - pre.length = k + 1 := ⟨i - pre.length - 1, by omega⟩
        rw [happ, List.getElem?_append_right (by omega), hk,
          List.getElem?_cons_succ]
        rw [hts, List.getElem?_append_right (by omega), hk,
          List.getElem?_cons_succ] at h
        exact h

/-- Frame of a whole operation sequence over a completed task: the task
keeps its position, id, and completed status, and its completion timestamp
is either untouched or refreshed by a later `complete` call naming its id. -/
lemma foldl_completed_evolution (ops : List Op) (s : AgentState) (i : Nat)
    (t : Task) (h : s.tasks[i]? = some t) (hst : t.status = "completed") :
    ∃ t2 : Task, (ops.foldl applyOp s).tasks[i]? = some t2 ∧
      t2.status = "completed" ∧ t2.id = t.id ∧
      (t2.completed_at = t.completed_at ∨
        ∃ now, Op.complete t.id now ∈ ops ∧ t2.completed_at = some now) := by
  induction ops generalizing s t with
  | nil => exact ⟨t, h, hst, rfl, .inl rfl⟩
  | cons op ops ih =>
    rcases applyOp_evolution s op i t h with h1 | ⟨now, hop, h1⟩
    · obtain ⟨t2, h2, h2st, h2id, h2ca⟩ := ih (applyOp s op) t h1 hst
      refine ⟨t2, h2, h2st, h2id, ?_⟩
      rcases h2ca with h2ca | ⟨now2, hmem, hca⟩
      · exact .inl h2ca
      · exact .inr ⟨now2, List.mem_cons_of_mem _ hmem, hca⟩
    · obtain ⟨t2, h2, h2st, h2id, h2ca⟩ :=
        ih (applyOp s op) { t with status := "completed", completed_at := some now }
          h1 rfl
      refine ⟨t2, h2, h2st, h2id, .inr ?_⟩
      rcases h2ca with h2ca | ⟨now2, hmem, hca⟩
      · exact ⟨now, by simp [hop], h2ca⟩
      · exact ⟨now2, List.mem_cons_of_mem _ hmem, hca⟩

/- ### Claim theorems -/

/-- C1: Atomicity of `add`: on any state the core itself reaches, `add`
either fails with `AnalysisUnavailable`/`AnalysisMalformed` leaving the
whole state — the task collection included — exactly as before the call, or
appends exactly one well-formed task record: all fields populated,
`status = "pending"`, `completed_at` still absent, the given description,
and an id (`length + 1`) that is unique in the collection. -/
theorem add_atomic (s : AgentState) (hs : Reachable s) (d now : String)
    (analysis : Except AnalyzeError JVal) :
    (∀ e, add_task s d now analysis = .error e →
       applyOp s (.add d now analysis) = s ∧
       (e = .unavailable ∨ e = .malformed)) ∧
    (∀ s' msg, add_task s d now analysis = .ok (s', msg) →
       ∃ t : Task, s'.tasks = s.tasks ++ [t] ∧ t.status = "pending" ∧
         t.completed_at = none ∧ t.description = d ∧
         t.id = Int.ofNat s.tasks.length + 1 ∧ t.id ∉ s.tasks.map Task.id) := by
  constructor
  · intro e he
    refine ⟨by simp [applyOp, he], ?_⟩
    cases e
    · exact .inl rfl
    · exact .inr rfl
  · intro s' msg hok
    obtain ⟨t, hts, hid, hst, hca, hdesc, -, -, -, -⟩ := add_task_ok hok
    refine ⟨t, hts, hst, hca, hdesc, hid, ?_⟩
    rw [hid]
    exact idsCanonical_fresh (reachable_idsCanonical hs)

/-- Witness for C1: on the first-run state, an unparseable analysis reply
makes `add` fail with `AnalysisMalformed` and leaves the state untouched. -/
theorem add_atomic_witness :
    applyOp initState (.add "Refactor module" "2024-01-01T10:00:00" (.error .malformed)) =
      initState ∧
    (AnalyzeError.malformed = .unavailable ∨ AnalyzeError.malformed = .malformed) :=
  (add_atomic initState .init "Refactor module" "2024-01-01T10:00:00"
    (.error .malformed)).1 .malformed rfl

/-- C2: `complete` on an id whose first match is a pending task rewrites
exactly that task to `status = "completed"` with the non-null timestamp
`some now`, and appends a `{action := "complete", task_id, timestamp}`
entry to the transient history; on an id present in no task it returns the
`"Task not found"` sentinel (the source-level `TaskNotFound` signal) and
the state — collection included — is exactly unchanged. -/
theorem complete_correct (s : AgentState) (task_id : Int) (now : String) :
    (∀ pre t post, s.tasks = pre ++ t :: post → (∀ u ∈ pre, u.id ≠ task_id) →
       t.id = task_id → t.status = "pending" →
       (complete_task s task_id now).1.tasks =
         pre ++ { t with status := "completed", completed_at := some now } :: post ∧
       ({ t with status := "completed", completed_at := some now } : Task).status =
         "completed" ∧
       ({ t with status := "completed", completed_at := some now } : Task).completed_at ≠
         none ∧
       (complete_task s task_id now).1.task_history =
         s.task_history ++
           [{ action := "complete", task_id := task_id, timestamp := now }]) ∧
    ((∀ u ∈ s.tasks, u.id ≠ task_id) →
       complete_task s task_id now = (s, "Task not found")) := by
  constructor
  · intro pre t post hts hpre ht hpend
    have hcf := completeFirst_decomp pre t post task_id now hpre ht
    refine ⟨?_, rfl, by simp, ?_⟩ <;> simp [complete_task, hts, hcf]
  · intro habs
    simp [complete_task, completeFirst_eq_none now habs]

/-- Witness for C2, the spec's scenario: the store holds the single pending
task `id 1, "Write spec", high`; `complete 1` marks it completed with the
timestamp and records the history entry. -/
theorem complete_correct_witness :
    (complete_task sampleState 1 "2024-01-02T12:00:00").1.tasks =
      [{ sampleTask with status := "completed", completed_at := some "2024-01-02T12:00:00" }] ∧
    (complete_task sampleState 1 "2024-01-02T12:00:00").1.task_history =
      [{ action := "complete", task_id := 1, timestamp := "2024-01-02T12:00:00" }] := by
  have h := (complete_correct sampleState 1 "2024-01-02T12:00:00").1
    [] sampleTask [] rfl (by simp) rfl rfl
  exact ⟨h.1, h.2.2.2⟩

/-- The completed copy of `sampleTask` as the first `complete 1` call of the
stability witness produces it. -/
def sampleTaskDone : Task :=
  { sampleTask with status := "completed", completed_at := some "2024-01-02T12:00:00" }

/-- C3 counterexample: `complete_task` re-marks unconditionally, so a second
`complete` on the already-completed task 1 changes its `completed_at` from
the first timestamp to the second — a subsequent operation does change the
`completed_at` of a completed task, refuting the claim as stated. -/
theorem completed_at_refresh_counterexample :
    ((applyOp sampleState (.complete 1 "2024-01-02T12:00:00")).tasks.map
        (fun t => (t.status, t.completed_at))) =
      [("completed", some "2024-01-02T12:00:00")] ∧
    ((applyOp (applyOp sampleState (.complete 1 "2024-01-02T12:00:00"))
        (.complete 1 "2024-01-03T08:00:00")).tasks.map
        (fun t => (t.status, t.completed_at))) =
      [("completed", some "2024-01-03T08:00:00")] :=
  ⟨rfl, rfl⟩

/-- C3 (amended): a task's status never leaves `completed` once set, `add`
never touches an existing task, and the only operation that changes a
completed task's `completed_at` is a later `complete` call naming its id,
which refreshes the timestamp (re-completion is a refresh, not a no-op). -/
theorem completed_at_stability (ops : List Op) (s : AgentState) (i : Nat)
    (t : Task) (h : s.tasks[i]? = some t) (hst : t.status = "completed") :
    ∃ t2 : Task, (ops.foldl applyOp s).tasks[i]? = some t2 ∧
      t2.status = "completed" ∧ t2.id = t.id ∧
      (t2.completed_at = t.completed_at ∨
        ∃ now, Op.complete t.id now ∈ ops ∧ t2.completed_at = some now) :=
  foldl_completed_evolution ops s i t h hst

/-- Witness for the amended C3: the completed copy of `sampleTask` survives
a further `complete 1` call with its status intact, and its timestamp is
either untouched or refreshed by that very call. -/
theorem completed_at_stability_witness :
    ∃ t2 : Task,
      ([Op.complete 1 "2024-01-03T08:00:00"].foldl applyOp
        (complete_task sampleState 1 "2024-01-02T12:00:00").1).tasks[0]? = some t2 ∧
      t2.status = "completed" ∧ t2.id = sampleTaskDone.id ∧
      (t2.completed_at = sampleTaskDone.completed_at ∨
        ∃ now, Op.complete sampleTaskDone.id now ∈
            [Op.complete 1 "2024-01-03T08:00:00"] ∧
          t2.completed_at = some now) :=
  completed_at_stability [Op.complete 1 "2024-01-03T08:00:00"]
    (complete_task sampleState 1 "2024-01-02T12:00:00").1 0 sampleTaskDone rfl rfl

/-- C4: the id assigned by `add` is `next_id(tasks) = len(tasks) + 1`, and
on any collection built solely through `add` that id collides with no
stored id; all stored ids are pairwise distinct. -/
theorem next_id_fresh (tasks : List Task) (h : AddBuilt tasks) :
    next_id tasks = tasks.length + 1 ∧
    (∀ (hist : List HistoryEntry) (doc : DocState) (d now : String)
       (a : Except AnalyzeError JVal) (s' : AgentState) (msg : String),
       add_task ⟨tasks, hist, doc⟩ d now a = .ok (s', msg) →
       ∃ t : Task, s'.tasks = tasks ++ [t] ∧ t.id = Int.ofNat (next_id tasks) ∧
         t.id ∉ tasks.map Task.id) ∧
    (tasks.map Task.id).Nodup := by
  have hc := addBuilt_idsCanonical h
  have he : Int.ofNat (next_id tasks) = Int.ofNat tasks.length + 1 := by
    simp [next_id]
  refine ⟨rfl, ?_, idsCanonical_nodup hc⟩
  intro hist doc d now a s' msg hok
  obtain ⟨t, hts, hid, -⟩ := add_task_ok hok
  refine ⟨t, hts, by rw [hid, he], ?_⟩
  rw [hid, ← he]
  rw [he]
  exact idsCanonical_fresh hc

/-- A task record as `add` itself creates it from `sampleAnalysis`, used to
exhibit a collection built through `add`. -/
def sampleAddedTask : Task :=
  { id := 1, description := "Refactor module", created_at := "2024-01-01T10:00:00",
    priority := .str "high", estimated_hours := .num 2, category := .str "development",
    subtasks := .arr [], status := "pending", completed_at := none }

/-- The task record a second `add` creates on top of `sampleAddedTask`. -/
def sampleAddedTask2 : Task :=
  { id := 2, description := "Write docs", created_at := "2024-01-02T10:00:00",
    priority := .str "high", estimated_hours := .num 2, category := .str "development",
    subtasks := .arr [], status := "pending", completed_at := none }

/-- Witness for C4 on a one-element collection actually built by `add`: the
next add yields a task with the fresh id 2 and the stored ids stay distinct. -/
theorem next_id_fresh_witness :
    next_id [sampleAddedTask] = 2 ∧
    (∃ t : Task,
       (AgentState.mk [sampleAddedTask, sampleAddedTask2] []
           (.content (encodeTasks [sampleAddedTask, sampleAddedTask2]))).tasks =
         [sampleAddedTask] ++ [t] ∧
       t.id = Int.ofNat (next_id [sampleAddedTask]) ∧
       t.id ∉ [sampleAddedTask].map Task.id) ∧
    ([sampleAddedTask].map Task.id).Nodup := by
  have hb : AddBuilt [sampleAddedTask] :=
    AddBuilt.step [] .absent "Refactor module" "2024-01-01T10:00:00"
      (.ok sampleAnalysis)
      { tasks := [sampleAddedTask], task_history := [],
        doc := .content (encodeTasks [sampleAddedTask]) }
      ("Added task with AI analysis: " ++ (encodeTask sampleAddedTask).render)
      AddBuilt.nil rfl
  have h := next_id_fresh [sampleAddedTask] hb
  exact ⟨h.1, h.2.1 [] (.content (encodeTasks [sampleAddedTask])) "Write docs"
    "2024-01-02T10:00:00" (.ok sampleAnalysis)
    (AgentState.mk [sampleAddedTask, sampleAddedTask2] []
      (.content (encodeTasks [sampleAddedTask, sampleAddedTask2])))
    ("Added task with AI analysis: " ++ (encodeTask sampleAddedTask2).render) rfl,
    h.2.2⟩

/-- C5: round-trip fidelity of the store: decoding an encoded collection
yields the identical collection, and re-encoding any decodable document
reproduces the document content exactly, so `save(load())` is a no-op on
the backing document. -/
theorem store_round_trip :
    (∀ tasks : List Task, decodeTasks (encodeTasks tasks) = some tasks) ∧
    (∀ (j : JVal) (tasks : List Task), decodeTasks j = some tasks →
       encodeTasks tasks = j) :=
  ⟨decodeTasks_encodeTasks, fun _ _ h => encodeTasks_of_decodeTasks h⟩

/-- The JSON document `save_tasks` writes for the spec's one-task scenario
store, spelled out field by field. -/
def sampleDoc : JVal :=
  .arr [.obj [("id", .num 1), ("description", .str "Write spec"),
    ("created_at", .str "2024-01-01T09:00:00"), ("priority", .str "high"),
    ("estimated_hours", .num 2), ("category", .str "writing"),
    ("subtasks", .arr []), ("status", .str "pending")]]

/-- Witness for C5 at the concrete scenario document. -/
theorem store_round_trip_witness :
    decodeTasks (encodeTasks [sampleTask]) = some [sampleTask] ∧
    encodeTasks [sampleTask] = sampleDoc :=
  ⟨store_round_trip.1 [sampleTask], store_round_trip.2 sampleDoc [sampleTask] rfl⟩

/-- C6: provider-binding equivalence with field-name normalization: when two
analysis replies agree up to the provider-specific estimate key
(`estimated_time` for the OpenAI binding, `estimated_time_to_complete` for
the Anthropic one), the two `add_task` variants return identical results;
and every successfully created record stores the estimate under the single
canonical persisted field name `estimated_hours`. -/
theorem provider_equivalence (s : AgentState) (d now : String) (a b : JVal)
    (hp : a.getKey "priority" = b.getKey "priority")
    (he : a.getKey "estimated_time" = b.getKey "estimated_time_to_complete")
    (hc : a.getKey "category" = b.getKey "category")
    (hs : a.getKey "potential_subtasks" = b.getKey "potential_subtasks") :
    add_task s d now (.ok a) = add_task_claude s d now (.ok b) ∧
    (∀ s' msg, add_task s d now (.ok a) = .ok (s', msg) →
       ∃ t : Task, s'.tasks = s.tasks ++ [t] ∧
         (encodeTask t).getKey "estimated_hours" = a.getKey "estimated_time") := by
  constructor
  · simp only [add_task, add_task_claude]
    rw [hp, he, hc, hs]
  · intro s' msg hok
    obtain ⟨t, hts, -, -, -, -, -, ⟨j, hj, -, hest, -, -⟩, -, -⟩ := add_task_ok hok
    injection hj with hj
    subst hj
    refine ⟨t, hts, ?_⟩
    rw [hest]
    simp [encodeTask, JVal.getKey, List.lookup]

/-- Witness for C6: the two bindings build the same task from the two
provider-shaped copies of the same analysis. -/
theorem provider_equivalence_witness :
    add_task initState "Refactor module" "2024-01-01T10:00:00" (.ok sampleAnalysis) =
      add_task_claude initState "Refactor module" "2024-01-01T10:00:00"
        (.ok sampleAnalysisClaude) :=
  (provider_equivalence initState "Refactor module" "2024-01-01T10:00:00"
    sampleAnalysis sampleAnalysisClaude rfl rfl rfl rfl).1

/-- C7: `recommend` on an empty collection short-circuits to the fixed
empty-state message with zero calls to the AI client; on a non-empty
collection it makes exactly one call and returns the reply verbatim. -/
theorem recommend_empty_short_circuit (s : AgentState) (ai : String → String) :
    (s.tasks = [] →
       get_smart_recommendations s ai = (s, "No tasks available for analysis", 0)) ∧
    (s.tasks ≠ [] →
       get_smart_recommendations s ai = (s, ai (recommendationsPrompt s.tasks), 1)) := by
  constructor
  · intro h
    simp [get_smart_recommendations, h]
  · intro h
    simp [get_smart_recommendations, h]

/-- Witness for C7: zero calls on the empty first-run state, one verbatim
reply on the one-task state. -/
theorem recommend_empty_short_circuit_witness :
    get_smart_recommendations initState (fun _ => "Do task 1 first") =
      (initState, "No tasks available for analysis", 0) ∧
    get_smart_recommendations sampleState (fun _ => "Do task 1 first") =
      (sampleState, "Do task 1 first", 1) :=
  ⟨(recommend_empty_short_circuit initState (fun _ => "Do task 1 first")).1 rfl,
   (recommend_empty_short_circuit sampleState (fun _ => "Do task 1 first")).2
     (by simp [sampleState])⟩

/-- C8: `load` tolerates exactly the file-not-found condition, yielding the
empty collection; a readable document is returned as parsed; any other
failure (unreadable, not valid JSON) is an error, not an empty result. -/
theorem load_absent_tolerated :
    load_tasks .absent = .ok (.arr []) ∧
    (∀ j, load_tasks (.content j) = .ok j) ∧
    (∀ d : DocState, (∃ e, load_tasks d = .error e) ↔
       d = .unreadable ∨ d = .invalid) := by
  refine ⟨rfl, fun j => rfl, fun d => ?_⟩
  cases d <;> simp [load_tasks]

/-- Witness for C8 at the first-run document state. -/
theorem load_absent_tolerated_witness :
    load_tasks .absent = .ok (.arr []) ∧
    load_tasks (.content sampleDoc) = .ok sampleDoc ∧
    ((∃ e, load_tasks .unreadable = .error e) ↔
       DocState.unreadable = .unreadable ∨ DocState.unreadable = .invalid) :=
  ⟨load_absent_tolerated.1, load_absent_tolerated.2.1 sampleDoc,
   load_absent_tolerated.2.2 .unreadable⟩

/-- C9: `recommend` and `report` are read-only: they return the agent state
— task collection, history, and backing document — exactly as given; their
only effect is the value passed to and received from the AI client. -/
theorem insight_read_only (s : AgentState) (ai1 ai2 : String → String) :
    (get_smart_recommendations s ai1).1 = s ∧ (generate_progress_report s ai2).1 = s := by
  constructor
  · unfold get_smart_recommendations
    split <;> rfl
  · rfl

/-- C10: frame of `complete`: only the first task whose id matches is
rewritten, and only its `status` and `completed_at` fields change — every
task before it and after it (including a later task sharing the same id
after an external edit of the document) is returned verbatim. -/
theorem complete_frame (s : AgentState) (task_id : Int) (now : String)
    (pre : List Task) (t : Task) (post : List Task)
    (hts : s.tasks = pre ++ t :: post) (hpre : ∀ u ∈ pre, u.id ≠ task_id)
    (ht : t.id = task_id) :
    (complete_task s task_id now).1.tasks =
      pre ++ { t with status := "completed", completed_at := some now } :: post := by
  have hcf := completeFirst_decomp pre t post task_id now hpre ht
  simp [complete_task, hts, hcf]

/-- A pending task sharing id 1, as an external edit of the document could
produce it. -/
def sampleDupTask : Task :=
  { id := 1, description := "External duplicate", created_at := "2024-01-01T11:00:00",
    priority := .str "low", estimated_hours := .num 1, category := .str "ops",
    subtasks := .arr [], status := "pending", completed_at := none }

/-- A state whose collection holds two tasks with the same id 1. -/
def sampleDupState : AgentState :=
  { tasks := [sampleTask, sampleDupTask], task_history := [],
    doc := .content (encodeTasks [sampleTask, sampleDupTask]) }

/-- Witness for C10: with two tasks sharing id 1, only the first match is
rewritten and the later duplicate is returned verbatim. -/
theorem complete_frame_witness :
    (complete_task sampleDupState 1 "2024-01-02T12:00:00").1.tasks =
      [{ sampleTask with status := "completed", completed_at := some "2024-01-02T12:00:00" },
       sampleDupTask] :=
  complete_frame sampleDupState 1 "2024-01-02T12:00:00" [] sampleTask [sampleDupTask]
    rfl (by simp) rfl

end TaskAgent
